import Mathlib

/-!
Verification of the core of `dashboard.py` from the rocket-race dashboard
repository: three-tier source resolution (`load_race_data`), schema
normalization of race records, and the analytics queries in `main`
(search, relative performance, superlative extraction, raced/pending
classification).

Numeric JSON values are modelled as `Rat` (for the float-valued fields)
and `Int` (for the integer-valued fields).  A pandas `NaN` cell — which
arises when a raw record lacks a key — is modelled as `Option.none`.
-/

set_option autoImplicit false

namespace Dashboard

/-- A raw per-participant record of a race-tier JSON file (live results or
backup file).  Missing keys become `none`, matching the `NaN` cells pandas
inserts when `pd.DataFrame(race_data['results'])` sees heterogeneous
records. -/
structure RawRecord where
  username : String
  fullName : Option String
  raceTime : Option Rat
  averageSpeed : Option Rat
  boostsUsed : Option Int
  collisions : Option Int
  distanceCovered : Option Rat
  rank : Option Int
deriving DecidableEq

/-- The canonical record produced by `load_race_data` (one row of the
returned DataFrame, after the column renames). -/
structure RaceResult where
  username : String
  fullName : Option String
  raceTimeSeconds : Option Rat
  averageSpeedKmh : Option Rat
  boostsUsed : Option Int
  collisions : Option Int
  distanceCoveredKm : Option Rat
  rank : Option Int
deriving DecidableEq

/-- One row of the participant-list CSV (tier 3): `Username` and a possibly
missing `Full Name`. -/
structure CsvRow where
  username : String
  fullName : Option String
deriving DecidableEq

/-- The parsed content of `latest_race_results.json`:
`status` is `latest_data.get('status')` (absent key gives `none`), and
`results` is `none` exactly when the `'results'` key is absent
(`'results' in latest_data` is false). -/
structure LiveJson where
  status : Option String
  results : Option (List RawRecord)
deriving DecidableEq

/-- The filesystem state `load_race_data` inspects.
`liveFile = none`: `latest_race_results.json` absent;
`liveFile = some none`: present but unreadable / not a JSON object
(the inner `except` branch);
`liveFile = some (some j)`: present and parsed as `j`.
`backups` is the `glob.glob('rocket_race_results_*.json')` result in its
enumeration order, paired with each file's `os.path.getctime` value. -/
structure FsState where
  liveFile : Option (Option LiveJson)
  backups : List (String × Int)
deriving DecidableEq

/-- Which tier `load_race_data` ends up reading its data from. -/
inductive Source where
  | live : Source
  | backup : String → Source
  | participants : Source
deriving DecidableEq

/-- The tier-1 eligibility test of `load_race_data` (line 75):
`latest_data.get('status') == 'completed' and 'results' in latest_data`. -/
def liveEligible (fs : FsState) : Bool :=
  match fs.liveFile with
  | some (some j) => (j.status == some "completed") && j.results.isSome
  | _ => false

/-- One comparison step of Python's `max(..., key=...)`: the current best
is replaced only when the new element's key is strictly greater. -/
def pickStep (b y : String × Int) : String × Int :=
  if b.2 < y.2 then y else b

/-- Python's `max(race_files, key=os.path.getctime)`: a left fold of
`pickStep`, hence it returns the first element attaining the maximal
creation time (line 91). -/
def pickBackup : List (String × Int) → Option (String × Int)
  | [] => none
  | x :: xs => some (xs.foldl pickStep x)

/-- Tiers 2 and 3 of `load_race_data` (lines 85–96 and 133–163): the most
recently created backup file if any backup file exists, else the
participant-list CSV. -/
def resolveBackups (fs : FsState) : Source :=
  match pickBackup fs.backups with
  | some (p, _) => Source.backup p
  | none => Source.participants

/-- The full tier precedence of `load_race_data`: the live file when
eligible, otherwise the backup/participant fallback chain. -/
def resolveSource (fs : FsState) : Source :=
  if liveEligible fs then Source.live else resolveBackups fs

/-- `'@'`-removal on a character list: Python's
`str.replace('@', '', regex=False)` deletes every occurrence of `'@'`. -/
def removeAtsL (cs : List Char) : List Char :=
  cs.filter (fun c => c != '@')

/-- Line 115: `df['Username'].str.replace('@', '', regex=False)`. -/
def removeAts (s : String) : String :=
  ⟨removeAtsL s.data⟩

/-- The whitespace characters Python's `str.strip` removes. -/
def isSpaceChar (c : Char) : Bool :=
  c == ' ' || c == '\t' || c == '\n' || c == '\r' || c == '\x0b' || c == '\x0c'

/-- Trim whitespace from both ends of a character list. -/
def trimChars (cs : List Char) : List Char :=
  ((cs.dropWhile isSpaceChar).reverse.dropWhile isSpaceChar).reverse

/-- Username normalization as the spec's words describe it ("leading sigil
stripped, whitespace trimmed"), kept distinct from `removeAts`, the
normalization the code performs, so the two can be compared. -/
def specNormalizeUsername (s : String) : String :=
  ⟨trimChars (if s.data.head? == some '@' then s.data.tail else s.data)⟩

/-- Race-tier normalization of one raw record (lines 98–115): the fixed
column rename followed by `'@'` removal on the username; every other
field is carried through unchanged (`NaN` cells, i.e. `none`, included). -/
def normalizeRecord (r : RawRecord) : RaceResult :=
  { username := removeAts r.username
    fullName := r.fullName
    raceTimeSeconds := r.raceTime
    averageSpeedKmh := r.averageSpeed
    boostsUsed := r.boostsUsed
    collisions := r.collisions
    distanceCoveredKm := r.distanceCovered
    rank := r.rank }

/-- Race-tier normalization of `race_data['results']`: `pd.DataFrame`
keeps every record (rows with missing keys get `NaN` cells), so the
transform is a plain map, with no record skipped and no per-record error
collected. -/
def normalizeRace (results : List RawRecord) : List RaceResult :=
  results.map normalizeRecord

/-- Participant-tier normalization of one CSV row at 0-based position `i`
(lines 137–147): username stripped of surrounding whitespace, full name
defaulting to the stripped username, `NaN` placeholders for the race
metrics, `0` for boosts and collisions, and `rank = i + 1`. -/
def normalizeCsvRow (i : Nat) (row : CsvRow) : RaceResult :=
  { username := row.username.trim
    fullName := some (row.fullName.getD row.username.trim)
    raceTimeSeconds := none
    averageSpeedKmh := none
    boostsUsed := some 0
    collisions := some 0
    distanceCoveredKm := none
    rank := some ((i : Int) + 1) }

/-- Participant-tier normalization of the whole CSV (tier 3). -/
def normalizeCsv (rows : List CsvRow) : List RaceResult :=
  rows.enum.map (fun p => normalizeCsvRow p.1 p.2)

/-- A record with all three optional race metrics present. -/
def fullyRaced (r : RaceResult) : Bool :=
  r.raceTimeSeconds.isSome && r.averageSpeedKmh.isSome && r.distanceCoveredKm.isSome

/-- A record with all three optional race metrics absent. -/
def fullyPending (r : RaceResult) : Bool :=
  r.raceTimeSeconds.isNone && r.averageSpeedKmh.isNone && r.distanceCoveredKm.isNone

/-- The spec's homogeneity invariant on a normalized collection: either
every record carries all optional race metrics or none does. -/
def homogeneous (l : List RaceResult) : Prop :=
  (∀ r ∈ l, fullyRaced r = true) ∨ (∀ r ∈ l, fullyPending r = true)

/-- Line 285: `has_race_data = not df['Race Time (s)'].isna().all()`. -/
def hasRaceData (l : List RaceResult) : Bool :=
  !(l.all (fun r => r.raceTimeSeconds.isNone))

/-- Contiguous-substring test on character lists (needle, then haystack):
the literal-substring reading of a search query. -/
def containsSub (n : List Char) : List Char → Bool
  | [] => n.isEmpty
  | c :: t => n.isPrefixOf (c :: t) || containsSub n t

/-- Anchored match of a regular-expression pattern against a prefix of the
string, for the fragment of Python regular expressions the queries here
use: plain characters and the `'.'` wildcard (which matches any single
character).  Patterns in this fragment have fixed length, so the match is
a pointwise test. -/
def reAccepts : List Char → List Char → Bool
  | [], _ => true
  | _ :: _, [] => false
  | p :: ps, c :: cs => (p == '.' || p == c) && reAccepts ps cs

/-- `re.search` over the same fragment: the pattern may match at any
position of the string. -/
def reSearch (pat : List Char) : List Char → Bool
  | [] => reAccepts pat []
  | c :: t => reAccepts pat (c :: t) || reSearch pat t

/-- `Series.str.contains(query, case=False, na=False)` applied to one
username.  pandas defaults to `regex=True`, so the query is a
case-insensitive regular-expression search, not a literal substring
match; `case=False` is modelled by lowering both sides. -/
def matchesCI (r : RaceResult) (q : String) : Bool :=
  reSearch (q.data.map Char.toLower) (r.username.data.map Char.toLower)

/-- The search of lines 560–566: `filtered_df = df.copy()` then
`if search_term: filtered_df = filtered_df[filtered_df['Username']
.str.contains(search_term, case=False, na=False)]` — the empty query is
falsy, so no filter is applied. -/
def searchCollection (l : List RaceResult) (q : String) : List RaceResult :=
  if q = "" then l else l.filter (fun r => matchesCI r q)

/-- The race times present in the collection (pandas skips `NaN`). -/
def presentTimes (l : List RaceResult) : List Rat :=
  l.filterMap (fun r => r.raceTimeSeconds)

/-- Line 333: `df['Race Time (s)'].mean()` — mean over the non-`NaN`
entries. -/
def meanTime (l : List RaceResult) : Rat :=
  (presentTimes l).sum / ((presentTimes l).length : Rat)

/-- Line 335: `(df['Race Time (s)'] > user_time).sum()` — a `NaN` entry
compares false. -/
def slowerCount (l : List RaceResult) (t : Rat) : Nat :=
  l.countP (fun r =>
    match r.raceTimeSeconds with
    | some s => decide (t < s)
    | none => false)

/-- Lines 295 and 331–344: the relative-performance numbers are computed
only when `has_race_data` holds and `len(df) > 1`; then
`delta = user_time - mean` and
`percentile = (count strictly slower / len(df)) * 100`.  A `NaN` user
time (absent record time) propagates as an absent result. -/
def relativePerformance (l : List RaceResult) (r : RaceResult) : Option (Rat × Rat) :=
  if hasRaceData l && decide (1 < l.length) then
    match r.raceTimeSeconds with
    | some t => some (t - meanTime l, ((slowerCount l t : Rat) / (l.length : Rat)) * 100)
    | none => none
  else none

/-- `Series.idxmax` followed by `df.loc[...]` (lines 585–606): the first
row attaining the maximum of the present values of the column, paired
with that maximum; `none` when no value is present. -/
def idxmaxAux (f : RaceResult → Option Rat) : List RaceResult → Option (RaceResult × Rat)
  | [] => none
  | r :: rs =>
    match f r with
    | none => idxmaxAux f rs
    | some v =>
      match idxmaxAux f rs with
      | none => some (r, v)
      | some (b, w) => if v < w then some (b, w) else some (r, v)

/-- The superlative query: the record holding the maximum of the given
numeric field, `none` on an empty (or all-absent) column. -/
def superlative (f : RaceResult → Option Rat) (l : List RaceResult) : Option RaceResult :=
  (idxmaxAux f l).map (fun p => p.1)

/-- The `Boosts Used` column viewed as a numeric field. -/
def boostsVal (r : RaceResult) : Option Rat :=
  r.boostsUsed.map (fun n => (n : Rat))

/-- The rank of a record, with `0` standing for an absent rank cell. -/
def rankVal (r : RaceResult) : Int :=
  r.rank.getD 0

/-- A live file that parses with status `"completed"` but no `results`
key: tier 1 rejects it even though it parses and is completed. -/
def c1BadLive : FsState :=
  { liveFile := some (some { status := some "completed", results := none })
    backups := [("rocket_race_results_1.json", 0)] }

/-- A well-formed raw race record. -/
def c1RawRecord : RawRecord :=
  { username := "racer1"
    fullName := some "Racer One"
    raceTime := some 10
    averageSpeed := some 40
    boostsUsed := some 1
    collisions := some 0
    distanceCovered := some 1
    rank := some 1 }

/-- The parsed content of a fully eligible live file. -/
def c1GoodJson : LiveJson :=
  { status := some "completed", results := some [c1RawRecord] }

/-- A fully eligible live file next to a much newer backup file. -/
def c1GoodLive : FsState :=
  { liveFile := some (some c1GoodJson)
    backups := [("rocket_race_results_1.json", 999)] }

/-- The parsed content of a live file whose race has not completed yet. -/
def c1PendingJson : LiveJson :=
  { status := some "in_progress", results := some [] }

/-- A live file whose race has not completed yet, next to a backup file. -/
def c1Pending : FsState :=
  { liveFile := some (some c1PendingJson)
    backups := [("rocket_race_results_2.json", 7)] }

/-- A live file with status `"completed"` and an empty `results`
collection, next to a backup file. -/
def c2EmptyLive : FsState :=
  { liveFile := some (some { status := some "completed", results := some [] })
    backups := [("rocket_race_results_1.json", 0)] }

/-- A well-formed raw race record for the C2 witness state. -/
def c2RawRecord : RawRecord :=
  { username := "racer2"
    fullName := none
    raceTime := some 9
    averageSpeed := some 41
    boostsUsed := some 0
    collisions := some 2
    distanceCovered := some 1
    rank := some 1 }

/-- The parsed content of an eligible live file. -/
def c2GoodJson : LiveJson :=
  { status := some "completed", results := some [c2RawRecord] }

/-- An eligible live file alone on the filesystem. -/
def c2GoodLive : FsState :=
  { liveFile := some (some c2GoodJson)
    backups := [] }

theorem resolveBackups_ne_live (fs : FsState) : resolveBackups fs ≠ Source.live := by
  unfold resolveBackups
  rcases pickBackup fs.backups with _ | ⟨p, t⟩ <;> simp

/-- Claim C1, counterexample: a live file that parses and has status
`"completed"` but carries no `results` key is not selected — the code's
tier-1 test also demands the `results` key (line 75), so resolution falls
through to the backup file, refuting the claim's first half as stated. -/
theorem c1_counterexample :
    resolveSource c1BadLive ≠ Source.live ∧
    resolveSource c1BadLive = Source.backup "rocket_race_results_1.json" := by
  constructor <;> decide

/-- Claim C1 (amended): if the live file parses, has status `"completed"`
and contains a `results` key, the live tier is selected regardless of any
file timestamps; if it parses but its status is not `"completed"`,
resolution does not fail and proceeds to the backup-file tier (which never
yields the live source). -/
theorem c1_tier_precedence :
    (∀ (fs : FsState) (j : LiveJson), fs.liveFile = some (some j) →
        j.status = some "completed" → j.results.isSome = true →
        resolveSource fs = Source.live) ∧
    (∀ (fs : FsState) (j : LiveJson), fs.liveFile = some (some j) →
        j.status ≠ some "completed" →
        resolveSource fs = resolveBackups fs ∧ resolveBackups fs ≠ Source.live) := by
  constructor
  · intro fs j hf hs hr
    simp [resolveSource, liveEligible, hf, hs, hr]
  · intro fs j hf hs
    refine ⟨?_, resolveBackups_ne_live fs⟩
    have hb : (j.status == some "completed") = false := beq_eq_false_iff_ne.mpr hs
    have he : liveEligible fs = false := by simp [liveEligible, hf, hb]
    simp [resolveSource, he]

/-- Claim C1, witness: the two halves of `c1_tier_precedence` applied to
concrete filesystem states. -/
theorem c1_witness :
    resolveSource c1GoodLive = Source.live ∧
    (resolveSource c1Pending = resolveBackups c1Pending ∧
      resolveBackups c1Pending ≠ Source.live) :=
  ⟨c1_tier_precedence.1 c1GoodLive c1GoodJson rfl rfl rfl,
   c1_tier_precedence.2 c1Pending c1PendingJson rfl (by decide)⟩

/-- Claim C2, counterexample: a live file with status `"completed"` and an
empty `results` collection IS selected by the code (line 75 only tests
`'results' in latest_data`, not non-emptiness), so resolution does not
fall through to the backup tier, refuting the claim. -/
theorem c2_counterexample : resolveSource c2EmptyLive = Source.live := by
  decide

/-- Claim C2 (amended): the live tier is selected exactly when the live
file parses, its status equals `"completed"`, and it contains a `results`
key — emptiness of the results collection is not checked, so a completed
live file with an empty results collection is still selected. -/
theorem c2_live_eligibility :
    ∀ fs : FsState, resolveSource fs = Source.live ↔
      ∃ j : LiveJson, fs.liveFile = some (some j) ∧
        j.status = some "completed" ∧ j.results.isSome = true := by
  intro fs
  constructor
  · intro h
    by_cases he : liveEligible fs = true
    · rcases hf : fs.liveFile with _ | (_ | j)
      · simp [liveEligible, hf] at he
      · simp [liveEligible, hf] at he
      · simp only [liveEligible, hf, Bool.and_eq_true, beq_iff_eq] at he
        exact ⟨j, rfl, he.1, he.2⟩
    · have he' : liveEligible fs = false := by simpa using he
      simp [resolveSource, he'] at h
      exact absurd h (resolveBackups_ne_live fs)
  · rintro ⟨j, hf, hs, hr⟩
    simp [resolveSource, liveEligible, hf, hs, hr]

/-- Claim C2, witness: `c2_live_eligibility` applied to a concrete
eligible live file. -/
theorem c2_witness : resolveSource c2GoodLive = Source.live :=
  (c2_live_eligibility c2GoodLive).mpr ⟨c2GoodJson, rfl, rfl, rfl⟩

/-- No live file; two backup files with distinct creation times, the
newer one enumerated second. -/
def c5TwoBackups : FsState :=
  { liveFile := none, backups := [("A", 1), ("B", 2)] }

/-- No live file; two backup files with equal creation times, glob
enumeration order the reverse of lexicographic path order. -/
def c5Tie : FsState :=
  { liveFile := none
    backups := [("rocket_race_results_b.json", 5), ("rocket_race_results_a.json", 5)] }

theorem foldl_pickStep_le (xs : List (String × Int)) :
    ∀ b, b.2 ≤ (xs.foldl pickStep b).2 ∧ ∀ y ∈ xs, y.2 ≤ (xs.foldl pickStep b).2 := by
  induction xs with
  | nil =>
    intro b
    exact ⟨le_refl _, fun y hy => absurd hy (List.not_mem_nil y)⟩
  | cons x xs ih =>
    intro b
    rw [List.foldl_cons]
    obtain ⟨h1, h2⟩ := ih (pickStep b x)
    have hb : b.2 ≤ (pickStep b x).2 := by
      unfold pickStep
      by_cases hbx : b.2 < x.2
      · rw [if_pos hbx]; exact le_of_lt hbx
      · rw [if_neg hbx]
    have hx : x.2 ≤ (pickStep b x).2 := by
      unfold pickStep
      by_cases hbx : b.2 < x.2
      · rw [if_pos hbx]
      · rw [if_neg hbx]; exact le_of_not_lt hbx
    refine ⟨le_trans hb h1, ?_⟩
    intro y hy
    rcases List.mem_cons.mp hy with rfl | hy'
    · exact le_trans hx h1
    · exact h2 y hy'

theorem foldl_pickStep_first (xs : List (String × Int)) :
    ∀ b r, xs.foldl pickStep b = r →
      ∃ l₁ l₂, b :: xs = l₁ ++ r :: l₂ ∧ ∀ y ∈ l₁, y.2 < r.2 := by
  induction xs with
  | nil =>
    intro b r hr
    cases hr
    exact ⟨[], [], rfl, fun y hy => absurd hy (List.not_mem_nil y)⟩
  | cons x xs ih =>
    intro b r hr
    rw [List.foldl_cons] at hr
    by_cases hbx : b.2 < x.2
    · rw [show pickStep b x = x from if_pos hbx] at hr
      obtain ⟨l₁, l₂, hdec, hlt⟩ := ih x r hr
      refine ⟨b :: l₁, l₂, ?_, ?_⟩
      · rw [List.cons_append, ← hdec]
      · intro y hy
        rcases List.mem_cons.mp hy with rfl | hy'
        · have hxr : x.2 ≤ r.2 := by
            have hle := (foldl_pickStep_le xs x).1
            rw [hr] at hle
            exact hle
          exact lt_of_lt_of_le hbx hxr
        · exact hlt y hy'
    · rw [show pickStep b x = b from if_neg hbx] at hr
      obtain ⟨l₁, l₂, hdec, hlt⟩ := ih b r hr
      cases l₁ with
      | nil =>
        simp only [List.nil_append] at hdec
        obtain ⟨hb, hl⟩ := List.cons.inj hdec
        refine ⟨[], x :: l₂, ?_, fun y hy => absurd hy (List.not_mem_nil y)⟩
        rw [List.nil_append, ← hb, ← hl]
      | cons c l₁' =>
        rw [List.cons_append] at hdec
        obtain ⟨hb, hl⟩ := List.cons.inj hdec
        have hbr : b.2 < r.2 := by
          rw [hb]
          exact hlt c (List.mem_cons_self c l₁')
        refine ⟨b :: x :: l₁', l₂, ?_, ?_⟩
        · rw [List.cons_append, List.cons_append, ← hl]
        · intro y hy
          rcases List.mem_cons.mp hy with rfl | hy2
          · exact hbr
          · rcases List.mem_cons.mp hy2 with rfl | hy3
            · exact lt_of_le_of_lt (le_of_not_lt hbx) hbr
            · exact hlt y (List.mem_cons_of_mem c hy3)

/-- Claim C5, counterexample: two backup files share a creation time and
the glob enumeration lists the lexicographically larger path first; the
code's `max(..., key=os.path.getctime)` keeps the first maximal element,
so the lexicographically smaller path is NOT selected, refuting the
claimed lexicographic tiebreak. -/
theorem c5_counterexample :
    resolveSource c5Tie = Source.backup "rocket_race_results_b.json" ∧
    resolveSource c5Tie ≠ Source.backup "rocket_race_results_a.json" := by
  constructor <;> decide

/-- Claim C5 (amended): whenever the live tier is ineligible and at least
one backup file exists, the resolver selects a backup file with the most
recent creation time; ties are broken deterministically by the earliest
position in the glob enumeration (every file listed before the chosen one
has a strictly older creation time), not by lexicographic path order; for
files `A` (creation time 1) and `B` (creation time 2) the resolver
returns `B`. -/
theorem c5_backup_selection :
    (∀ fs : FsState, liveEligible fs = false → fs.backups ≠ [] →
      ∃ p t l₁ l₂, resolveSource fs = Source.backup p ∧
        fs.backups = l₁ ++ (p, t) :: l₂ ∧
        (∀ y ∈ fs.backups, y.2 ≤ t) ∧
        (∀ y ∈ l₁, y.2 < t)) ∧
    resolveSource c5TwoBackups = Source.backup "B" := by
  constructor
  · intro fs he hne
    have hres : resolveSource fs = resolveBackups fs := by
      simp [resolveSource, he]
    rcases hbk : fs.backups with _ | ⟨x, xs⟩
    · exact absurd hbk hne
    · rcases hfold : xs.foldl pickStep x with ⟨p, t⟩
      obtain ⟨l₁, l₂, hdec, hlt⟩ := foldl_pickStep_first xs x (p, t) hfold
      obtain ⟨hx, hall⟩ := foldl_pickStep_le xs x
      rw [hfold] at hx hall
      refine ⟨p, t, l₁, l₂, ?_, hdec, ?_, hlt⟩
      · rw [hres]
        simp [resolveBackups, pickBackup, hbk, hfold]
      · intro y hy
        rcases List.mem_cons.mp hy with rfl | hy'
        · exact hx
        · exact hall y hy'
  · decide

/-- Claim C5, witness: the general half of `c5_backup_selection` applied
to the concrete two-backup state. -/
theorem c5_witness :
    ∃ p t l₁ l₂, resolveSource c5TwoBackups = Source.backup p ∧
      c5TwoBackups.backups = l₁ ++ (p, t) :: l₂ ∧
      (∀ y ∈ c5TwoBackups.backups, y.2 ≤ t) ∧
      (∀ y ∈ l₁, y.2 < t) :=
  c5_backup_selection.1 c5TwoBackups (by decide) (by decide)

/-- The spec's round-trip record: `{username:"@pilot1", raceTime:12.5,
averageSpeed:40.0, boostsUsed:2, collisions:0, distanceCovered:1.2,
rank:1}`. -/
def c3PilotRaw : RawRecord :=
  { username := "@pilot1"
    fullName := none
    raceTime := some 12.5
    averageSpeed := some 40
    boostsUsed := some 2
    collisions := some 0
    distanceCovered := some 1.2
    rank := some 1 }

/-- The canonical record the round-trip is expected to produce. -/
def c3PilotCanonical : RaceResult :=
  { username := "pilot1"
    fullName := none
    raceTimeSeconds := some 12.5
    averageSpeedKmh := some 40
    boostsUsed := some 2
    collisions := some 0
    distanceCoveredKm := some 1.2
    rank := some 1 }

/-- A raw record whose username carries an interior `'@'`. -/
def c3AtRaw : RawRecord :=
  { username := "a@b"
    fullName := none
    raceTime := some 10
    averageSpeed := some 40
    boostsUsed := some 0
    collisions := some 0
    distanceCovered := some 1
    rank := some 1 }

/-- A raw record whose username carries leading whitespace. -/
def c3SpaceRaw : RawRecord :=
  { username := " pilot1"
    fullName := none
    raceTime := some 10
    averageSpeed := some 40
    boostsUsed := some 0
    collisions := some 0
    distanceCovered := some 1
    rank := some 1 }

/-- Claim C3, counterexample: race-tier normalization does not implement
"strip one leading sigil and trim": on username `"a@b"` the code deletes
the interior `'@'` (yielding `"ab"`, not preserving every other
character), and on username `" pilot1"` it performs no whitespace
trimming — both disagree with `specNormalizeUsername`, the spec's
description of the transform. -/
theorem c3_counterexample :
    (normalizeRecord c3AtRaw).username ≠ specNormalizeUsername c3AtRaw.username ∧
    (normalizeRecord c3SpaceRaw).username ≠ specNormalizeUsername c3SpaceRaw.username := by
  constructor <;> decide

/-- Claim C3 (amended): race-tier normalization deletes every `'@'`
character of the username (so a leading sigil is stripped, but interior
sigils are deleted too) and performs no whitespace trimming; every other
field of the record is preserved exactly; on a username whose only `'@'`
is the leading sigil the transform coincides with sigil stripping, and
the spec's round-trip record yields username `"pilot1"` with all other
fields unchanged. -/
theorem c3_username_normalization :
    (∀ cs : List Char, '@' ∉ cs → removeAtsL ('@' :: cs) = cs) ∧
    (∀ r : RawRecord,
      (normalizeRecord r).username = removeAts r.username ∧
      (normalizeRecord r).fullName = r.fullName ∧
      (normalizeRecord r).raceTimeSeconds = r.raceTime ∧
      (normalizeRecord r).averageSpeedKmh = r.averageSpeed ∧
      (normalizeRecord r).boostsUsed = r.boostsUsed ∧
      (normalizeRecord r).collisions = r.collisions ∧
      (normalizeRecord r).distanceCoveredKm = r.distanceCovered ∧
      (normalizeRecord r).rank = r.rank) ∧
    normalizeRace [c3PilotRaw] = [c3PilotCanonical] := by
  refine ⟨?_, ?_, rfl⟩
  · intro cs h
    have hstep : removeAtsL ('@' :: cs) = removeAtsL cs := by
      simp [removeAtsL]
    rw [hstep]
    unfold removeAtsL
    rw [List.filter_eq_self]
    intro a ha
    exact bne_iff_ne.mpr (fun heq => h (heq ▸ ha))
  · intro r
    exact ⟨rfl, rfl, rfl, rfl, rfl, rfl, rfl, rfl⟩

/-- Claim C3, witness: the sigil-stripping half of
`c3_username_normalization` applied to a concrete sigil-free tail. -/
theorem c3_witness : removeAtsL ('@' :: ['p', '1']) = ['p', '1'] :=
  c3_username_normalization.1 ['p', '1'] (by decide)

/-- A well-formed raw record (all optional numeric fields present). -/
def c4GoodRaw : RawRecord :=
  { username := "gamma"
    fullName := some "Gamma"
    raceTime := some 11
    averageSpeed := some 39
    boostsUsed := some 1
    collisions := some 1
    distanceCovered := some 1
    rank := some 1 }

/-- A malformed raw record: the `raceTime` key is missing while the other
optional numeric fields are present. -/
def c4BadRaw : RawRecord :=
  { username := "delta"
    fullName := some "Delta"
    raceTime := none
    averageSpeed := some 38
    boostsUsed := some 2
    collisions := some 0
    distanceCovered := some 1
    rank := some 2 }

/-- Claim C4, counterexample: a race-tier input mixing a well-formed
record with one missing `raceTime` normalizes to a collection that is
neither fully raced nor fully pending — the homogeneity invariant fails
on the code, which keeps every record and fills missing keys with absent
values. -/
theorem c4_counterexample : ¬ homogeneous (normalizeRace [c4GoodRaw, c4BadRaw]) := by
  unfold homogeneous
  decide

/-- Claim C4 (amended): the output collection is homogeneous for the
participant tier always, and for the race tiers whenever every input
record carries all three optional numeric fields; when a race-tier input
mixes records with and without those fields, the output mixes present and
absent fields as well. -/
theorem c4_homogeneity :
    (∀ results : List RawRecord,
      (∀ r ∈ results, r.raceTime.isSome = true ∧ r.averageSpeed.isSome = true ∧
        r.distanceCovered.isSome = true) →
      homogeneous (normalizeRace results)) ∧
    (∀ rows : List CsvRow, homogeneous (normalizeCsv rows)) := by
  constructor
  · intro results h
    left
    intro r hr
    obtain ⟨s, hs, rfl⟩ := List.mem_map.mp hr
    obtain ⟨h1, h2, h3⟩ := h s hs
    simp [fullyRaced, normalizeRecord, h1, h2, h3]
  · intro rows
    right
    intro r hr
    obtain ⟨p, hp, rfl⟩ := List.mem_map.mp hr
    simp [fullyPending, normalizeCsvRow]

/-- Claim C4, witness: the race-tier half of `c4_homogeneity` on a
concrete well-formed input. -/
theorem c4_witness : homogeneous (normalizeRace [c4GoodRaw]) :=
  c4_homogeneity.1 [c4GoodRaw] (by decide)

/-- A well-formed raw record for the C9 inputs. -/
def c9Good : RawRecord :=
  { username := "alpha"
    fullName := some "Alpha"
    raceTime := some 10
    averageSpeed := some 42
    boostsUsed := some 3
    collisions := some 0
    distanceCovered := some 1
    rank := some 1 }

/-- A malformed raw record missing its `raceTime` field. -/
def c9Bad : RawRecord :=
  { username := "beta"
    fullName := some "Beta"
    raceTime := none
    averageSpeed := some 35
    boostsUsed := some 1
    collisions := some 2
    distanceCovered := some 1
    rank := some 2 }

/-- Claim C9, counterexample: with one well-formed and one malformed
record, the code returns BOTH records (the malformed one kept, its
missing field absent) rather than the valid subset alone, and collects no
per-record error — normalization is a plain map with no skipping or
reporting. -/
theorem c9_counterexample :
    (normalizeRace [c9Good, c9Bad]).length ≠ 1 ∧
    normalizeRecord c9Bad ∈ normalizeRace [c9Good, c9Bad] ∧
    (normalizeRecord c9Bad).raceTimeSeconds = none := by
  refine ⟨by decide, by decide, rfl⟩

/-- Claim C9 (amended): malformed per-participant records (e.g. missing a
required numeric field) are neither skipped nor collected and reported;
normalization keeps every record — malformed ones included, with the
missing fields absent — and the resolution cycle proceeds with the full
collection rather than yielding an empty result. -/
theorem c9_partial_records :
    ∀ (results : List RawRecord) (r : RawRecord), r ∈ results → r.raceTime = none →
      (normalizeRace results).length = results.length ∧
      normalizeRecord r ∈ normalizeRace results ∧
      (normalizeRecord r).raceTimeSeconds = none := by
  intro results r hr hn
  refine ⟨?_, List.mem_map_of_mem normalizeRecord hr, ?_⟩
  · simp [normalizeRace]
  · simp [normalizeRecord, hn]

/-- Claim C9, witness: `c9_partial_records` applied to the concrete mixed
input. -/
theorem c9_witness :
    (normalizeRace [c9Good, c9Bad]).length = [c9Good, c9Bad].length ∧
    normalizeRecord c9Bad ∈ normalizeRace [c9Good, c9Bad] ∧
    (normalizeRecord c9Bad).raceTimeSeconds = none :=
  c9_partial_records [c9Good, c9Bad] c9Bad (by decide) rfl

theorem idxmaxAux_none (f : RaceResult → Option Rat) :
    ∀ l, idxmaxAux f l = none → ∀ r ∈ l, f r = none := by
  intro l
  induction l with
  | nil => intro _ r hr; exact absurd hr (List.not_mem_nil r)
  | cons x xs ih =>
    intro h r hr
    rcases hf : f x with _ | v
    · have h' : idxmaxAux f xs = none := by simpa [idxmaxAux, hf] using h
      rcases List.mem_cons.mp hr with rfl | hr'
      · exact hf
      · exact ih h' r hr'
    · rcases hrec : idxmaxAux f xs with _ | ⟨c, u⟩
      · simp [idxmaxAux, hf, hrec] at h
      · by_cases hvw : v < u
        · simp [idxmaxAux, hf, hrec, hvw] at h
        · simp [idxmaxAux, hf, hrec, hvw] at h

theorem idxmaxAux_mem_max (f : RaceResult → Option Rat) :
    ∀ l b w, idxmaxAux f l = some (b, w) →
      (b ∈ l ∧ f b = some w) ∧ ∀ r ∈ l, ∀ v, f r = some v → v ≤ w := by
  intro l
  induction l with
  | nil => intro b w h; simp [idxmaxAux] at h
  | cons x xs ih =>
    intro b w h
    rcases hf : f x with _ | v
    · have h' : idxmaxAux f xs = some (b, w) := by simpa [idxmaxAux, hf] using h
      obtain ⟨⟨hbmem, hbf⟩, hmax⟩ := ih b w h'
      refine ⟨⟨List.mem_cons_of_mem x hbmem, hbf⟩, ?_⟩
      intro r hr v hv
      rcases List.mem_cons.mp hr with rfl | hr'
      · rw [hf] at hv; cases hv
      · exact hmax r hr' v hv
    · rcases hrec : idxmaxAux f xs with _ | ⟨c, u⟩
      · have h' : x = b ∧ v = w := by simpa [idxmaxAux, hf, hrec] using h
        obtain ⟨rfl, rfl⟩ := h'
        refine ⟨⟨List.mem_cons_self x xs, hf⟩, ?_⟩
        intro r hr v' hv'
        rcases List.mem_cons.mp hr with rfl | hr'
        · rw [hf] at hv'
          cases hv'
          exact le_refl _
        · have hnone := idxmaxAux_none f xs hrec r hr'
          rw [hnone] at hv'; cases hv'
      · by_cases hvw : v < u
        · have h' : c = b ∧ u = w := by simpa [idxmaxAux, hf, hrec, hvw] using h
          obtain ⟨rfl, rfl⟩ := h'
          obtain ⟨⟨hbmem, hbf⟩, hmax⟩ := ih c u hrec
          refine ⟨⟨List.mem_cons_of_mem x hbmem, hbf⟩, ?_⟩
          intro r hr v' hv'
          rcases List.mem_cons.mp hr with rfl | hr'
          · rw [hf] at hv'
            cases hv'
            exact le_of_lt hvw
          · exact hmax r hr' v' hv'
        · have h' : x = b ∧ v = w := by simpa [idxmaxAux, hf, hrec, hvw] using h
          obtain ⟨rfl, rfl⟩ := h'
          refine ⟨⟨List.mem_cons_self x xs, hf⟩, ?_⟩
          intro r hr v' hv'
          rcases List.mem_cons.mp hr with rfl | hr'
          · rw [hf] at hv'
            cases hv'
            exact le_refl _
          · obtain ⟨_, hmax⟩ := ih c u hrec
            exact le_trans (hmax r hr' v' hv') (le_of_not_lt hvw)

theorem idxmaxAux_rank (f : RaceResult → Option Rat) :
    ∀ l b w, l.Pairwise (fun a c => rankVal a ≤ rankVal c) →
      idxmaxAux f l = some (b, w) →
      ∀ r ∈ l, f r = some w → rankVal b ≤ rankVal r := by
  intro l
  induction l with
  | nil => intro b w _ h; simp [idxmaxAux] at h
  | cons x xs ih =>
    intro b w hp h r hr hrw
    obtain ⟨hhead, htail⟩ := List.pairwise_cons.mp hp
    rcases hf : f x with _ | v
    · have h' : idxmaxAux f xs = some (b, w) := by simpa [idxmaxAux, hf] using h
      rcases List.mem_cons.mp hr with rfl | hr'
      · rw [hf] at hrw; cases hrw
      · exact ih b w htail h' r hr' hrw
    · rcases hrec : idxmaxAux f xs with _ | ⟨c, u⟩
      · have h' : x = b ∧ v = w := by simpa [idxmaxAux, hf, hrec] using h
        obtain ⟨rfl, rfl⟩ := h'
        rcases List.mem_cons.mp hr with rfl | hr'
        · exact le_refl _
        · have hnone := idxmaxAux_none f xs hrec r hr'
          rw [hnone] at hrw; cases hrw
      · by_cases hvw : v < u
        · have h' : c = b ∧ u = w := by simpa [idxmaxAux, hf, hrec, hvw] using h
          obtain ⟨rfl, rfl⟩ := h'
          rcases List.mem_cons.mp hr with rfl | hr'
          · rw [hf] at hrw
            cases hrw
            exact absurd hvw (lt_irrefl _)
          · exact ih c u htail hrec r hr' hrw
        · have h' : x = b ∧ v = w := by simpa [idxmaxAux, hf, hrec, hvw] using h
          obtain ⟨rfl, rfl⟩ := h'
          rcases List.mem_cons.mp hr with rfl | hr'
          · exact le_refl _
          · exact hhead r hr'

/-- A boosts-maximal record listed first but holding the higher rank. -/
def c6RecA : RaceResult :=
  { username := "a"
    fullName := none
    raceTimeSeconds := some 10
    averageSpeedKmh := some 40
    boostsUsed := some 7
    collisions := some 0
    distanceCoveredKm := some 1
    rank := some 2 }

/-- A boosts-maximal record listed second but holding the lower rank. -/
def c6RecB : RaceResult :=
  { username := "b"
    fullName := none
    raceTimeSeconds := some 9
    averageSpeedKmh := some 41
    boostsUsed := some 7
    collisions := some 1
    distanceCoveredKm := some 1
    rank := some 1 }

/-- Boundary of the positional tie-break: on a collection NOT ordered by
rank (order rank 2, rank 1), `idxmax` keeps the first maximal row, the
rank-2 record; the lowest-rank tie-break of `c6_superlative` therefore
genuinely depends on its rank-ordering hypothesis, which the canonical
raced collection satisfies by construction. -/
theorem superlative_unsorted_tiebreak :
    superlative boostsVal [c6RecA, c6RecB] = some c6RecA ∧
    rankVal c6RecA = 2 ∧ rankVal c6RecB = 1 ∧
    boostsVal c6RecA = boostsVal c6RecB := by
  refine ⟨by decide, rfl, rfl, rfl⟩

/-- Claim C6: on an empty collection `superlative` yields no record
instead of failing to a record; on a non-empty raced collection — all
field values present and, as the canonical data model requires, ordered
by non-decreasing rank — it returns a record attaining the maximum of
the field, and among records tied at the maximum the returned one has
the lowest rank. -/
theorem c6_superlative :
    (∀ f, superlative f [] = none) ∧
    (∀ (f : RaceResult → Option Rat) (l : List RaceResult), l ≠ [] →
      (∀ r ∈ l, (f r).isSome = true) →
      l.Pairwise (fun a c => rankVal a ≤ rankVal c) →
      ∃ b w, superlative f l = some b ∧ b ∈ l ∧ f b = some w ∧
        (∀ r ∈ l, ∀ v, f r = some v → v ≤ w) ∧
        (∀ r ∈ l, f r = some w → rankVal b ≤ rankVal r)) := by
  constructor
  · intro f; rfl
  · intro f l hne hall hp
    rcases l with _ | ⟨x, xs⟩
    · exact absurd rfl hne
    · have hx := hall x (List.mem_cons_self x xs)
      rcases hfx : f x with _ | v
      · rw [hfx] at hx; cases hx
      · rcases hres : idxmaxAux f (x :: xs) with _ | ⟨b, w⟩
        · have hcontra := idxmaxAux_none f (x :: xs) hres x (List.mem_cons_self x xs)
          rw [hfx] at hcontra; cases hcontra
        · obtain ⟨⟨hbmem, hbf⟩, hmax⟩ := idxmaxAux_mem_max f (x :: xs) b w hres
          refine ⟨b, w, ?_, hbmem, hbf, hmax, ?_⟩
          · simp [superlative, hres]
          · exact idxmaxAux_rank f (x :: xs) b w hp hres

/-- The spec's superlative example, ordered by rank: boosts 7, 7, 3 at
ranks 1, 2, 3. -/
def c6W1 : RaceResult :=
  { username := "b"
    fullName := none
    raceTimeSeconds := some 9
    averageSpeedKmh := some 41
    boostsUsed := some 7
    collisions := some 0
    distanceCoveredKm := some 1
    rank := some 1 }

/-- Second record of the C6 witness collection. -/
def c6W2 : RaceResult :=
  { username := "c"
    fullName := none
    raceTimeSeconds := some 10
    averageSpeedKmh := some 40
    boostsUsed := some 7
    collisions := some 1
    distanceCoveredKm := some 1
    rank := some 2 }

/-- Third record of the C6 witness collection. -/
def c6W3 : RaceResult :=
  { username := "a"
    fullName := none
    raceTimeSeconds := some 11
    averageSpeedKmh := some 39
    boostsUsed := some 3
    collisions := some 2
    distanceCoveredKm := some 1
    rank := some 3 }

/-- Claim C6, witness: `c6_superlative` applied to the spec's concrete
rank-ordered example collection. -/
theorem c6_witness :
    ∃ b w, superlative boostsVal [c6W1, c6W2, c6W3] = some b ∧
      b ∈ [c6W1, c6W2, c6W3] ∧ boostsVal b = some w ∧
      (∀ r ∈ [c6W1, c6W2, c6W3], ∀ v, boostsVal r = some v → v ≤ w) ∧
      (∀ r ∈ [c6W1, c6W2, c6W3], boostsVal r = some w → rankVal b ≤ rankVal r) :=
  c6_superlative.2 boostsVal [c6W1, c6W2, c6W3] (by decide) (by decide) (by decide)

theorem presentTimes_all :
    ∀ l : List RaceResult, (∀ x ∈ l, x.raceTimeSeconds.isSome = true) →
      presentTimes l = l.map (fun x => x.raceTimeSeconds.getD 0) := by
  intro l
  induction l with
  | nil => intro _; rfl
  | cons x xs ih =>
    intro h
    have htail := ih (fun y hy => h y (List.mem_cons_of_mem x hy))
    have hx := h x (List.mem_cons_self x xs)
    rcases hxt : x.raceTimeSeconds with _ | t
    · rw [hxt] at hx; cases hx
    · have hcons : presentTimes (x :: xs) = t :: presentTimes xs := by
        simp [presentTimes, hxt]
      rw [hcons, htail, List.map_cons, hxt]
      rfl

theorem slowerCount_all (l : List RaceResult)
    (h : ∀ x ∈ l, x.raceTimeSeconds.isSome = true) (t : Rat) :
    slowerCount l t = l.countP (fun x => decide (t < x.raceTimeSeconds.getD 0)) := by
  unfold slowerCount
  apply List.countP_congr
  intro x hx
  have hs := h x hx
  rcases hxt : x.raceTimeSeconds with _ | s
  · rw [hxt] at hs; cases hs
  · exact Iff.rfl

theorem hasRaceData_of_mem (l : List RaceResult) (r : RaceResult)
    (hr : r ∈ l) (h : r.raceTimeSeconds.isSome = true) : hasRaceData l = true := by
  have hall : l.all (fun x => x.raceTimeSeconds.isNone) = false := by
    rcases hn : l.all (fun x => x.raceTimeSeconds.isNone) with _ | _
    · rfl
    · have hnone := List.all_eq_true.mp hn r hr
      rw [Option.isNone_iff_eq_none] at hnone
      rw [hnone] at h
      cases h
  simp [hasRaceData, hall]

theorem hasRaceData_none (l : List RaceResult)
    (h : ∀ x ∈ l, x.raceTimeSeconds = none) : hasRaceData l = false := by
  have hall : l.all (fun x => x.raceTimeSeconds.isNone) = true := by
    rw [List.all_eq_true]
    intro x hx
    rw [h x hx]
    rfl
  simp [hasRaceData, hall]

/-- A lone fully raced record: a one-record raced collection. -/
def c7Solo : RaceResult :=
  { username := "solo"
    fullName := none
    raceTimeSeconds := some 10
    averageSpeedKmh := some 40
    boostsUsed := some 1
    collisions := some 0
    distanceCoveredKm := some 1
    rank := some 1 }

/-- Claim C7, counterexample: on a raced collection of exactly one record
the code never computes the relative-performance numbers (the block is
guarded by `len(df) > 1` on line 332), so no delta/percentile is
returned, refuting the claim's "for every raced collection and every
record in it". -/
theorem c7_counterexample : relativePerformance [c7Solo] c7Solo = none := by
  decide

/-- Claim C7 (amended): on a collection whose race times are all present
and which has at least two records, `relativePerformance` of a member
record returns the record's time minus the arithmetic mean of all times,
and 100 times the fraction of the collection strictly slower than the
record; on a pending collection (all times absent) it returns nothing;
one-record collections also return nothing. -/
theorem c7_relative_performance :
    (∀ (l : List RaceResult) (r : RaceResult) (t : Rat),
      (∀ x ∈ l, x.raceTimeSeconds.isSome = true) → r ∈ l →
      r.raceTimeSeconds = some t → 2 ≤ l.length →
      relativePerformance l r = some
        (t - (l.map (fun x => x.raceTimeSeconds.getD 0)).sum / (l.length : Rat),
         ((l.countP (fun x => decide (t < x.raceTimeSeconds.getD 0)) : Rat) /
           (l.length : Rat)) * 100)) ∧
    (∀ (l : List RaceResult) (r : RaceResult), (∀ x ∈ l, x.raceTimeSeconds = none) →
      relativePerformance l r = none) := by
  constructor
  · intro l r t hall hr hrt hlen
    have hhas : hasRaceData l = true :=
      hasRaceData_of_mem l r hr (by rw [hrt]; rfl)
    have hlt : 1 < l.length := hlen
    have hcond : (hasRaceData l && decide (1 < l.length)) = true := by
      rw [hhas, decide_eq_true hlt]
      rfl
    have hmean : meanTime l =
        (l.map (fun x => x.raceTimeSeconds.getD 0)).sum / (l.length : Rat) := by
      unfold meanTime
      rw [presentTimes_all l hall, List.length_map]
    have hcount := slowerCount_all l hall t
    simp only [relativePerformance, hcond, if_true, hrt]
    rw [hmean, hcount]
  · intro l r h
    have hno : hasRaceData l = false := hasRaceData_none l h
    simp [relativePerformance, hno]

/-- First record of the C7 witness collection (race time 10). -/
def c7A : RaceResult :=
  { username := "a7"
    fullName := none
    raceTimeSeconds := some 10
    averageSpeedKmh := some 40
    boostsUsed := some 1
    collisions := some 0
    distanceCoveredKm := some 1
    rank := some 1 }

/-- Second record of the C7 witness collection (race time 20). -/
def c7B : RaceResult :=
  { username := "b7"
    fullName := none
    raceTimeSeconds := some 20
    averageSpeedKmh := some 30
    boostsUsed := some 2
    collisions := some 1
    distanceCoveredKm := some 1
    rank := some 2 }

/-- Claim C7, witness: `c7_relative_performance` applied to a concrete
two-record raced collection. -/
theorem c7_witness :
    relativePerformance [c7A, c7B] c7A = some
      (10 - ([c7A, c7B].map (fun x => x.raceTimeSeconds.getD 0)).sum /
        (([c7A, c7B] : List RaceResult).length : Rat),
       (([c7A, c7B].countP (fun x => decide ((10 : Rat) < x.raceTimeSeconds.getD 0)) : Rat) /
         (([c7A, c7B] : List RaceResult).length : Rat)) * 100) :=
  c7_relative_performance.1 [c7A, c7B] c7A 10 (by decide) (by decide) rfl (by decide)

theorem reSearch_nil : ∀ hay : List Char, reSearch [] hay = true
  | [] => rfl
  | _ :: _ => rfl

theorem reAccepts_no_dot :
    ∀ pat hay : List Char, '.' ∉ pat → reAccepts pat hay = pat.isPrefixOf hay := by
  intro pat
  induction pat with
  | nil => intro hay _; cases hay <;> rfl
  | cons p ps ih =>
    intro hay hnd
    cases hay with
    | nil => rfl
    | cons c cs =>
      have hp : (p == '.') = false :=
        beq_eq_false_iff_ne.mpr (fun h => hnd (h ▸ List.mem_cons_self p ps))
      simp only [reAccepts, List.isPrefixOf, hp, Bool.false_or]
      rw [ih cs (fun h => hnd (List.mem_cons_of_mem p h))]

theorem reSearch_no_dot :
    ∀ (pat hay : List Char), '.' ∉ pat → reSearch pat hay = containsSub pat hay := by
  intro pat hay
  induction hay with
  | nil =>
    intro _
    cases pat <;> rfl
  | cons c cs ih =>
    intro hnd
    simp only [reSearch, containsSub]
    rw [reAccepts_no_dot pat (c :: cs) hnd, ih hnd]

/-- A record whose username is `"ab"`, which contains no `'.'`. -/
def c8Rec : RaceResult :=
  { username := "ab"
    fullName := none
    raceTimeSeconds := some 10
    averageSpeedKmh := some 40
    boostsUsed := some 1
    collisions := some 0
    distanceCoveredKm := some 1
    rank := some 1 }

/-- Claim C8, counterexample: the query `"."` is a substring of no
username in the collection, yet search returns the whole collection
instead of an empty sequence — `str.contains` defaults to `regex=True`,
so `'.'` is a wildcard matching any character, not a literal. -/
theorem c8_counterexample :
    containsSub ['.'] (c8Rec.username.data.map Char.toLower) = false ∧
    searchCollection [c8Rec] "." = [c8Rec] := by
  constructor <;> decide

/-- Claim C8 (amended): the empty query returns the full collection
unchanged and in order, and a query that matches no record returns an
empty sequence as a normal result; but the match is a case-insensitive
regular-expression search, not a literal substring match — the two
coincide exactly for queries free of regex metacharacters (within the
modelled fragment, patterns without the `'.'` wildcard). -/
theorem c8_search :
    (∀ l : List RaceResult, searchCollection l "" = l) ∧
    (∀ (l : List RaceResult) (q : String), (∀ r ∈ l, matchesCI r q = false) →
      searchCollection l q = []) ∧
    (∀ pat hay : List Char, '.' ∉ pat → reSearch pat hay = containsSub pat hay) := by
  refine ⟨?_, ?_, reSearch_no_dot⟩
  · intro l; rfl
  · intro l q h
    by_cases hq : q = ""
    · subst hq
      rcases l with _ | ⟨x, xs⟩
      · rfl
      · have hx := h x (List.mem_cons_self x xs)
        have hm : matchesCI x "" = true := reSearch_nil _
        rw [hm] at hx
        cases hx
    · rw [searchCollection, if_neg hq]
      rw [List.filter_eq_nil_iff]
      intro r hr
      simp [h r hr]

/-- A record whose username matches neither search probe. -/
def c8W : RaceResult :=
  { username := "pilot1"
    fullName := none
    raceTimeSeconds := some 10
    averageSpeedKmh := some 40
    boostsUsed := some 1
    collisions := some 0
    distanceCoveredKm := some 1
    rank := some 1 }

/-- Claim C8, witness: the no-match half of `c8_search` applied to a
concrete collection and query. -/
theorem c8_witness : searchCollection [c8W] "zzzznomatch" = [] :=
  c8_search.2.1 [c8W] "zzzznomatch" (by decide)

/-- A record carrying a race time. -/
def c10One : RaceResult :=
  { username := "finisher"
    fullName := none
    raceTimeSeconds := some 10
    averageSpeedKmh := some 40
    boostsUsed := some 1
    collisions := some 0
    distanceCoveredKm := some 1
    rank := some 1 }

/-- A record with no race time. -/
def c10NoTime1 : RaceResult :=
  { username := "waiting1"
    fullName := none
    raceTimeSeconds := none
    averageSpeedKmh := none
    boostsUsed := some 0
    collisions := some 0
    distanceCoveredKm := none
    rank := some 2 }

/-- Another record with no race time. -/
def c10NoTime2 : RaceResult :=
  { username := "waiting2"
    fullName := none
    raceTimeSeconds := none
    averageSpeedKmh := none
    boostsUsed := some 0
    collisions := some 0
    distanceCoveredKm := none
    rank := some 3 }

/-- Claim C10: `has_race_data` is true exactly when at least one record
carries a present race time; in particular a collection where a single
record has a time and the others do not is classified as raced. -/
theorem c10_has_race_data :
    (∀ l : List RaceResult,
      hasRaceData l = true ↔ ∃ r ∈ l, r.raceTimeSeconds.isSome = true) ∧
    hasRaceData [c10NoTime1, c10One, c10NoTime2] = true := by
  constructor
  · intro l
    constructor
    · intro h
      by_contra hne
      push_neg at hne
      have hall : l.all (fun x => x.raceTimeSeconds.isNone) = true := by
        rw [List.all_eq_true]
        intro x hx
        have hns := hne x hx
        rcases hxt : x.raceTimeSeconds with _ | t
        · rfl
        · exact absurd (by rw [hxt]; rfl) hns
      unfold hasRaceData at h
      rw [hall] at h
      cases h
    · rintro ⟨r, hr, hs⟩
      exact hasRaceData_of_mem l r hr hs
  · decide

/-- Claim C10, witness: the characterization applied to a concrete
mixed collection. -/
theorem c10_witness : hasRaceData [c10NoTime1, c10One] = true :=
  (c10_has_race_data.1 [c10NoTime1, c10One]).mpr ⟨c10One, by decide, rfl⟩

end Dashboard
